import Mathlib

/-
  Verification of the NYC-UHI fetch–reconcile–aggregate pipeline.

  Shallow embedding of the relevant parts of
    Data_fetch/aggregate_acs.py
    Data_fetch/fetch_acs_nyc_2020_2024.py
    Data_fetch/joint.py
  Pandas/number cells are modelled as `Option ℚ` (NaN = none), raw ACS
  cells as `Option Int` (parse failure = none), strings as `List Char`.
-/

namespace NYCUHI

/-! ## Aggregation helpers (aggregate_acs.py) -/

/-- Embedding of `weighted_avg(df, value_col, weight_col)` from
`aggregate_acs.py` lines 29–35.  Each list entry is one group member's
(value, weight) pair after `pd.to_numeric(..., errors="coerce")`.
`w.notna().sum() == 0` is "no weight present", `w.fillna(0).sum() == 0`
is "present weights sum to zero"; otherwise the result is
`(v * w).sum() / w.sum()` where pandas `.sum()` skips NaN, so the
numerator ranges over members with both value and weight present while
the denominator ranges over all members with a present weight. -/
def weighted_avg (vw : List (Option ℚ × Option ℚ)) : Option ℚ :=
  if ((vw.map Prod.snd).filterMap id).length = 0 ∨ ((vw.map Prod.snd).filterMap id).sum = 0
  then none
  else
    some ((vw.filterMap fun p => p.1.bind fun v => Option.map (fun u => v * u) p.2).sum
          / ((vw.map Prod.snd).filterMap id).sum)

/-- Embedding of the pandas reduction `group[c].sum(min_count=1)` used at
`aggregate_acs.py` line 111: the sum of the present (non-NaN) values of
the group, NaN when fewer than one value is present. -/
def sumMinCount1 (xs : List (Option ℚ)) : Option ℚ :=
  if 1 ≤ (xs.filterMap id).length then some (xs.filterMap id).sum else none

/-! ## Helper lemmas about the aggregation functions -/

theorem filterMap_snd_sum (vw : List (Option ℚ × Option ℚ)) :
    ((vw.map Prod.snd).filterMap id).sum
      = ((vw.filter fun p => p.2.isSome).map fun p => p.2.getD 0).sum := by
  induction vw with
  | nil => rfl
  | cons p rest ih =>
    obtain ⟨v, w⟩ := p
    cases w <;> simp [List.filter_cons] <;> rw [← ih] <;> simp

theorem filterMap_prod_sum (vw : List (Option ℚ × Option ℚ)) :
    (vw.filterMap fun p => p.1.bind fun v => Option.map (fun u => v * u) p.2).sum
      = ((vw.filter fun p => p.1.isSome && p.2.isSome).map
          fun p => p.1.getD 0 * p.2.getD 0).sum := by
  induction vw with
  | nil => rfl
  | cons p rest ih =>
    obtain ⟨v, w⟩ := p
    cases v <;> cases w <;> simp [List.filter_cons, ← ih]

theorem length_zero_of_sum_ne {ws : List (Option ℚ)}
    (h : (ws.filterMap id).length = 0) : (ws.filterMap id).sum = 0 := by
  rw [List.length_eq_zero] at h
  rw [h]
  rfl

/-- Claim C1 (amended): the weighted-mean aggregate equals
Σ(value×weight) over members with **both** value and weight present,
divided by Σ(weight) over **all** members with a present weight
(value presence does not restrict the denominator), and it is absent
exactly when the present weights sum to zero (in particular when no
weight is present). -/
theorem weighted_avg_characterization (vw : List (Option ℚ × Option ℚ)) :
    weighted_avg vw =
      if ((vw.filter fun p => p.2.isSome).map fun p => p.2.getD 0).sum = 0 then none
      else
        some ((((vw.filter fun p => p.1.isSome && p.2.isSome).map
                  fun p => p.1.getD 0 * p.2.getD 0).sum)
              / (((vw.filter fun p => p.2.isSome).map fun p => p.2.getD 0).sum)) := by
  by_cases hz : ((vw.filter fun p => p.2.isSome).map fun p => p.2.getD 0).sum = 0
  · have hcond : ((vw.map Prod.snd).filterMap id).length = 0 ∨
        ((vw.map Prod.snd).filterMap id).sum = 0 := by
      right
      rw [filterMap_snd_sum]
      exact hz
    simp only [weighted_avg, if_pos hcond, if_pos hz]
  · have hsum : ((vw.map Prod.snd).filterMap id).sum ≠ 0 := by
      rw [filterMap_snd_sum]; exact hz
    have hcond : ¬ (((vw.map Prod.snd).filterMap id).length = 0 ∨
        ((vw.map Prod.snd).filterMap id).sum = 0) := by
      rintro (hlen | h)
      · exact hsum (length_zero_of_sum_ne hlen)
      · exact hsum h
    simp only [weighted_avg, if_neg hcond, if_neg hz]
    rw [filterMap_prod_sum, filterMap_snd_sum]

/-- Claim C1, counterexample to the claim as stated: with values
[10, 20, None] and weights [1, 3, 5] the code returns
(10×1+20×3)/(1+3+5) = 70/9, not the claimed (10×1+20×3)/(1+3) = 17.5;
and a group where no member has both value and weight present (but a
weight is present and nonzero) yields 0, not an absent result. -/
theorem weighted_avg_counterexample :
    weighted_avg [(some 10, some 1), (some 20, some 3), (none, some 5)] = some (70 / 9)
      ∧ (70 / 9 : ℚ) ≠ 35 / 2
      ∧ weighted_avg [(none, some 1)] = some 0 := by
  refine ⟨?_, by norm_num, ?_⟩
  · simp [weighted_avg, List.filterMap_cons]
    norm_num
  · simp [weighted_avg, List.filterMap_cons]

/-- Claim C7: a `sum`-treated column over a group where every member's
value is absent aggregates to an absent value (not zero); a group with
at least one present value aggregates to the sum of exactly the present
values. -/
theorem sum_min_count_spec (xs : List (Option ℚ)) :
    ((∀ x ∈ xs, x = none) → sumMinCount1 xs = none)
      ∧ (∀ v : ℚ, some v ∈ xs →
          sumMinCount1 xs = some ((xs.filterMap id).sum)) := by
  constructor
  · intro hall
    have hnil : xs.filterMap (id : Option ℚ → Option ℚ) = [] := by
      rw [List.filterMap_eq_nil_iff]
      intro x hx
      rw [hall x hx]; rfl
    simp [sumMinCount1, hnil]
  · intro v hv
    have hmem : v ∈ xs.filterMap id := List.mem_filterMap.2 ⟨some v, hv, rfl⟩
    have hlen : 1 ≤ (xs.filterMap id).length := by
      cases h : xs.filterMap id with
      | nil => rw [h] at hmem; cases hmem
      | cons a l => simp
    simp [sumMinCount1, hlen]

/-- Witness for `sum_min_count_spec` at concrete groups. -/
theorem sum_min_count_spec_witness :
    sumMinCount1 [none, none] = none ∧ sumMinCount1 [some 3, none, some 4] = some 7 := by
  constructor
  · exact (sum_min_count_spec [none, none]).1 (by intro x hx; simpa using hx)
  · have h := (sum_min_count_spec [some 3, none, some 4]).2 3 (by simp)
    rw [h]
    simp [List.filterMap_cons]
    norm_num

/-! ## Identifier normalization (aggregate_acs.py line 51/62, joint.py lines 17/20) -/

/-- Embedding of Python `str.zfill(width)`, applied to identifier values
as `.astype(str).str.zfill(11)`.  A string at least `width` long is
returned unchanged; otherwise it is left-padded with `'0'` to `width`
characters, after a leading `'+'`/`'-'` sign if one is present. -/
def zfill (width : Nat) (s : List Char) : List Char :=
  if width ≤ s.length then s
  else if s.headD '0' = '+' ∨ s.headD '0' = '-' then
    s.headD '0' :: (List.replicate (width - s.length) '0' ++ s.tail)
  else List.replicate (width - s.length) '0' ++ s

/-- `s` does not start with an explicit sign character. -/
def unsigned (s : List Char) : Bool :=
  match s with
  | [] => true
  | c :: _ => !(c == '+' || c == '-')

theorem zfill_of_le {width : Nat} {s : List Char} (h : width ≤ s.length) :
    zfill width s = s := by
  unfold zfill
  rw [if_pos h]

theorem zfill_length (width : Nat) (s : List Char) :
    (zfill width s).length = max width s.length := by
  unfold zfill
  by_cases h : width ≤ s.length
  · rw [if_pos h]
    omega
  · rw [if_neg h]
    by_cases hs : s.headD '0' = '+' ∨ s.headD '0' = '-'
    · rw [if_pos hs]
      cases s with
      | nil => simp at hs
      | cons c rest => simp at h ⊢; omega
    · rw [if_neg hs]
      simp at h ⊢
      omega

theorem zfill_unsigned_pad {s : List Char} (h : s.length ≤ 11)
    (hsign : unsigned s = true) :
    zfill 11 s = List.replicate (11 - s.length) '0' ++ s := by
  rcases Nat.eq_or_lt_of_le h with heq | hlt
  · rw [zfill_of_le (le_of_eq heq.symm), heq]
    simp
  · have hns : ¬(s.headD '0' = '+' ∨ s.headD '0' = '-') := by
      cases s with
      | nil => simp
      | cons c rest =>
        simp [unsigned] at hsign
        simp [hsign.1, hsign.2]
    unfold zfill
    rw [if_neg (by omega), if_neg hns]

theorem digit_unsigned_cons {c : Char} (rest : List Char) (h : c.isDigit = true) :
    unsigned (c :: rest) = true := by
  have h1 : c ≠ '+' := by rintro rfl; exact absurd h (by decide)
  have h2 : c ≠ '-' := by rintro rfl; exact absurd h (by decide)
  simp [unsigned, h1, h2]

/-- Claim C5 (amended): identifier normalization left-pads any unsigned
value of at most 11 characters with zeros to exactly 11 characters, and
passes any value longer than 11 characters through **unchanged** —
`str.zfill` neither truncates nor raises an error. -/
theorem zfill_overlong_passthrough (s : List Char) :
    (11 < s.length → zfill 11 s = s)
      ∧ (s.length ≤ 11 → unsigned s = true →
          zfill 11 s = List.replicate (11 - s.length) '0' ++ s) := by
  constructor
  · intro h
    exact zfill_of_le (by omega)
  · intro h hsign
    exact zfill_unsigned_pad h hsign

/-- Witness for `zfill_overlong_passthrough` on concrete identifiers. -/
theorem zfill_overlong_passthrough_witness :
    zfill 11 ("123456789012".toList) = "123456789012".toList
      ∧ zfill 11 ("9001".toList) = "00000009001".toList := by
  constructor
  · exact (zfill_overlong_passthrough ("123456789012".toList)).1 (by decide)
  · rw [(zfill_overlong_passthrough ("9001".toList)).2 (by decide) (by decide)]
    decide

/-- Claim C5, counterexample to the claim as stated: a 12-character
identifier is returned unchanged by the normalization — it is silently
passed through, not rejected with an error (the embedded `zfill` is a
total function and the source has no length check on this path). -/
theorem zfill_overlong_counterexample :
    zfill 11 ("360050001001".toList) = "360050001001".toList
      ∧ ("360050001001".toList).length = 12 := by
  constructor <;> decide

/-- Claim C9: normalization is idempotent — re-normalizing any already
normalized value (indeed, any normalization output) is the identity —
and two differently zero-padded renderings of the same underlying digit
core normalize to the same 11-character string, provided each rendering
fits in 11 characters. -/
theorem zfill_idempotent_normalization :
    (∀ s : List Char, zfill 11 (zfill 11 s) = zfill 11 s)
      ∧ (∀ (core : List Char) (a b : Nat),
          (∀ c ∈ core, c.isDigit = true) →
          a + core.length ≤ 11 → b + core.length ≤ 11 →
          zfill 11 (List.replicate a '0' ++ core)
            = zfill 11 (List.replicate b '0' ++ core)) := by
  constructor
  · intro s
    exact zfill_of_le (by rw [zfill_length]; omega)
  · have key : ∀ (core : List Char) (a : Nat),
        (∀ c ∈ core, c.isDigit = true) → a + core.length ≤ 11 →
        zfill 11 (List.replicate a '0' ++ core)
          = List.replicate (11 - core.length) '0' ++ core := by
      intro core a hdig ha
      have hlen : (List.replicate a '0' ++ core).length ≤ 11 := by
        simp
        omega
      have hsign : unsigned (List.replicate a '0' ++ core) = true := by
        cases a with
        | zero =>
          simp only [List.replicate_zero, List.nil_append]
          cases core with
          | nil => rfl
          | cons d rest => exact digit_unsigned_cons rest (hdig d (List.mem_cons_self d rest))
        | succ n =>
          rw [List.replicate_succ, List.cons_append]
          exact digit_unsigned_cons _ (by decide)
      rw [zfill_unsigned_pad hlen hsign]
      rw [← List.append_assoc, ← List.replicate_add]
      congr 2
      simp
      omega
    intro core a b hdig ha hb
    rw [key core a hdig ha, key core b hdig hb]

/-- Witness for `zfill_idempotent_normalization`: re-normalizing and
pad-insensitivity at concrete identifiers. -/
theorem zfill_idempotent_normalization_witness :
    zfill 11 (zfill 11 ("9001".toList)) = zfill 11 ("9001".toList)
      ∧ zfill 11 (List.replicate 0 '0' ++ "9001".toList)
          = zfill 11 (List.replicate 3 '0' ++ "9001".toList) := by
  constructor
  · exact zfill_idempotent_normalization.1 ("9001".toList)
  · exact zfill_idempotent_normalization.2 ("9001".toList) 0 3 (by decide) (by decide)
      (by decide)

/-! ## Row construction and derived percentages (fetch_acs_nyc_2020_2024.py) -/

/-- Embedding of `to_int(x)` (lines 142–146): parse an optionally signed
digit string as an integer, absent (`None`) on parse failure.  This
covers exactly the value strings the census API returns; Python `int`
additionally strips whitespace, which never occurs in those values. -/
def to_int (s : List Char) : Option Int :=
  match s with
  | '-' :: rest => (digitsToNat rest).map fun n => -(n : Int)
  | '+' :: rest => (digitsToNat rest).map fun n => (n : Int)
  | _ => (digitsToNat s).map fun n => (n : Int)
where
  digitsToNat (t : List Char) : Option Nat :=
    if t = [] then none
    else t.foldl (fun acc c =>
      acc.bind fun n => if c.isDigit then some (10 * n + (c.toNat - 48)) else none)
      (some 0)

/-- One fetched row's raw counts, as parsed by `to_int` at line 189:
absent means the API value was missing or failed to parse. -/
structure RawRow where
  median_income : Option Int
  race_total : Option Int
  white_alone : Option Int
  black_alone : Option Int
  asian_alone : Option Int
  eth_total : Option Int
  hispanic_any : Option Int
  pop_total : Option Int
  male_under5 : Option Int
  female_under5 : Option Int
  male_65_66 : Option Int
  male_67_69 : Option Int
  male_70_74 : Option Int
  male_75_79 : Option Int
  male_80_84 : Option Int
  male_85_plus : Option Int
  female_65_66 : Option Int
  female_67_69 : Option Int
  female_70_74 : Option Int
  female_75_79 : Option Int
  female_80_84 : Option Int
  female_85_plus : Option Int
  hh_total : Option Int
  owner_occ : Option Int
  renter_occ : Option Int

/-- A row with every raw count absent. -/
def emptyRow : RawRow :=
  ⟨none, none, none, none, none, none, none, none, none, none, none, none, none,
   none, none, none, none, none, none, none, none, none, none, none, none⟩

/-- Embedding of the Python idiom `row.get(k) or 0` (lines 206–226): an
absent value is coerced to 0.  (Python `or` also maps a present 0 to 0,
which coincides with `getD`-style defaulting on integers.) -/
def orZero (x : Option Int) : Int :=
  match x with
  | none => 0
  | some v => v

/-- Round-half-to-even on an exact rational, the rounding rule of Python
`round` (the source applies it to a float; values here are modelled as
exact rationals). -/
def roundHalfEven (q : ℚ) : Int :=
  if q - ⌊q⌋ < 1 / 2 then ⌊q⌋
  else if 1 / 2 < q - ⌊q⌋ then ⌊q⌋ + 1
  else if ⌊q⌋ % 2 = 0 then ⌊q⌋ else ⌊q⌋ + 1

/-- Embedding of `round(x, 3)`. -/
def round3 (q : ℚ) : ℚ := (roundHalfEven (q * 1000) : ℚ) / 1000

/-- Embedding of the derived-percentage pattern of lines 211–226:
`round((row.get(num) or 0)/den*100, 3) if den else None`, where `den` is
already the `or 0`-coerced denominator.  The guard is Python truthiness:
the percentage is computed whenever `den ≠ 0`. -/
def pctField (num : Option Int) (den : Int) : Option ℚ :=
  if den ≠ 0 then some (round3 ((orZero num : ℚ) / (den : ℚ) * 100)) else none

def pct_white (r : RawRow) : Option ℚ := pctField r.white_alone (orZero r.race_total)

def pct_black (r : RawRow) : Option ℚ := pctField r.black_alone (orZero r.race_total)

def pct_asian (r : RawRow) : Option ℚ := pctField r.asian_alone (orZero r.race_total)

def pct_hispanic (r : RawRow) : Option ℚ := pctField r.hispanic_any (orZero r.eth_total)

/-- `under5 = (male_under5 or 0) + (female_under5 or 0)` (line 216). -/
def under5 (r : RawRow) : Int := orZero r.male_under5 + orZero r.female_under5

/-- `age65p` as the sum of the twelve 65-plus component counts, each
coerced with `or 0` (lines 217–220). -/
def age65plus (r : RawRow) : Int :=
  orZero r.male_65_66 + orZero r.male_67_69 + orZero r.male_70_74 +
  orZero r.male_75_79 + orZero r.male_80_84 + orZero r.male_85_plus +
  orZero r.female_65_66 + orZero r.female_67_69 + orZero r.female_70_74 +
  orZero r.female_75_79 + orZero r.female_80_84 + orZero r.female_85_plus

def pct_under5 (r : RawRow) : Option ℚ := pctField (some (under5 r)) (orZero r.pop_total)

def pct_65plus (r : RawRow) : Option ℚ := pctField (some (age65plus r)) (orZero r.pop_total)

def pct_renter (r : RawRow) : Option ℚ := pctField r.renter_occ (orZero r.hh_total)

def pct_owner (r : RawRow) : Option ℚ := pctField r.owner_occ (orZero r.hh_total)

theorem pctField_of_ne {num : Option Int} {den : Int} (h : den ≠ 0) :
    pctField num den = some (round3 ((orZero num : ℚ) / (den : ℚ) * 100)) := by
  rw [pctField, if_pos h]

theorem pctField_zero (num : Option Int) : pctField num 0 = none := by
  rw [pctField, if_neg]
  simp

theorem orZero_absent_or_zero {x : Option Int} (h : x = none ∨ x = some 0) :
    orZero x = 0 := by
  rcases h with rfl | rfl <;> rfl

theorem round3_zero : round3 0 = 0 := by
  norm_num [round3, roundHalfEven]

/-- Claim C3 (amended): each derived percentage equals
numerator/denominator × 100 rounded to 3 decimals, computed exactly when
the corresponding denominator is present and **nonzero** (Python
truthiness — a present negative denominator also computes); when the
denominator is absent or zero the field is absent. -/
theorem derived_pct_guard (r : RawRow) :
    ((r.race_total = none ∨ r.race_total = some 0) →
        pct_white r = none ∧ pct_black r = none ∧ pct_asian r = none)
    ∧ (∀ d : Int, r.race_total = some d → d ≠ 0 →
        pct_white r = some (round3 ((orZero r.white_alone : ℚ) / (d : ℚ) * 100))
        ∧ pct_black r = some (round3 ((orZero r.black_alone : ℚ) / (d : ℚ) * 100))
        ∧ pct_asian r = some (round3 ((orZero r.asian_alone : ℚ) / (d : ℚ) * 100)))
    ∧ ((r.eth_total = none ∨ r.eth_total = some 0) → pct_hispanic r = none)
    ∧ (∀ d : Int, r.eth_total = some d → d ≠ 0 →
        pct_hispanic r = some (round3 ((orZero r.hispanic_any : ℚ) / (d : ℚ) * 100)))
    ∧ ((r.pop_total = none ∨ r.pop_total = some 0) →
        pct_under5 r = none ∧ pct_65plus r = none)
    ∧ (∀ d : Int, r.pop_total = some d → d ≠ 0 →
        pct_under5 r = some (round3 ((under5 r : ℚ) / (d : ℚ) * 100))
        ∧ pct_65plus r = some (round3 ((age65plus r : ℚ) / (d : ℚ) * 100)))
    ∧ ((r.hh_total = none ∨ r.hh_total = some 0) →
        pct_renter r = none ∧ pct_owner r = none)
    ∧ (∀ d : Int, r.hh_total = some d → d ≠ 0 →
        pct_renter r = some (round3 ((orZero r.renter_occ : ℚ) / (d : ℚ) * 100))
        ∧ pct_owner r = some (round3 ((orZero r.owner_occ : ℚ) / (d : ℚ) * 100))) := by
  refine ⟨?_, ?_, ?_, ?_, ?_, ?_, ?_, ?_⟩
  · intro h
    have h0 := orZero_absent_or_zero h
    exact ⟨by rw [pct_white, h0]; exact pctField_zero _,
           by rw [pct_black, h0]; exact pctField_zero _,
           by rw [pct_asian, h0]; exact pctField_zero _⟩
  · intro d hd hne
    have h0 : orZero r.race_total = d := by rw [hd]; rfl
    exact ⟨by rw [pct_white, h0]; exact pctField_of_ne hne,
           by rw [pct_black, h0]; exact pctField_of_ne hne,
           by rw [pct_asian, h0]; exact pctField_of_ne hne⟩
  · intro h
    have h0 := orZero_absent_or_zero h
    rw [pct_hispanic, h0]
    exact pctField_zero _
  · intro d hd hne
    have h0 : orZero r.eth_total = d := by rw [hd]; rfl
    rw [pct_hispanic, h0]
    exact pctField_of_ne hne
  · intro h
    have h0 := orZero_absent_or_zero h
    exact ⟨by rw [pct_under5, h0]; exact pctField_zero _,
           by rw [pct_65plus, h0]; exact pctField_zero _⟩
  · intro d hd hne
    have h0 : orZero r.pop_total = d := by rw [hd]; rfl
    refine ⟨?_, ?_⟩
    · rw [pct_under5, h0, pctField_of_ne hne]; rfl
    · rw [pct_65plus, h0, pctField_of_ne hne]; rfl
  · intro h
    have h0 := orZero_absent_or_zero h
    exact ⟨by rw [pct_renter, h0]; exact pctField_zero _,
           by rw [pct_owner, h0]; exact pctField_zero _⟩
  · intro d hd hne
    have h0 : orZero r.hh_total = d := by rw [hd]; rfl
    exact ⟨by rw [pct_renter, h0]; exact pctField_of_ne hne,
           by rw [pct_owner, h0]; exact pctField_of_ne hne⟩

/-- A row whose race denominator parsed to a negative value (the census
API encodes some missing values as negative sentinels such as
-666666666, which `to_int` parses successfully). -/
def negDenRow : RawRow :=
  { emptyRow with race_total := some (-4), white_alone := some 2 }

/-- Claim C3, counterexample to the claim as stated: with a present but
**negative** denominator (−4) the percentage is still computed (the
code's guard is truthiness, not strict positivity): the field is
`some (-50)`, not absent. -/
theorem derived_pct_guard_counterexample :
    negDenRow.race_total = some (-4)
      ∧ ¬ (0 : Int) < (-4)
      ∧ pct_white negDenRow = some (-50) := by
  refine ⟨rfl, by norm_num, ?_⟩
  show pctField (some 2) (orZero (some (-4))) = some (-50)
  rw [show orZero (some (-4)) = (-4 : Int) from rfl, pctField_of_ne (by norm_num)]
  norm_num [orZero, round3, roundHalfEven]

/-- Witness for `derived_pct_guard`: the absent branch at the all-absent
row and the computed branch at a concrete populated row. -/
def tenureRow : RawRow :=
  { emptyRow with hh_total := some 100, renter_occ := some 30 }

theorem derived_pct_guard_witness :
    pct_white emptyRow = none ∧ pct_renter tenureRow = some 30 := by
  constructor
  · exact ((derived_pct_guard emptyRow).1 (Or.inl rfl)).1
  · have h := ((derived_pct_guard tenureRow).2.2.2.2.2.2.2 100 rfl (by norm_num)).1
    rw [h, show orZero tenureRow.renter_occ = 30 from rfl]
    norm_num [round3, roundHalfEven]

/-- Claim C10: when a denominator is present and nonzero (of either
sign) but the numerator count is absent, the `or 0` coercion makes the
derived percentage a present `0.0` value rather than an absent one. -/
theorem absent_numerator_zero_pct (r : RawRow) :
    (∀ d : Int, r.race_total = some d → d ≠ 0 → r.white_alone = none →
        pct_white r = some 0)
    ∧ (∀ d : Int, r.hh_total = some d → d ≠ 0 → r.renter_occ = none →
        pct_renter r = some 0) := by
  constructor
  · intro d hd hne hnum
    have h0 : orZero r.race_total = d := by rw [hd]; rfl
    rw [pct_white, h0, hnum, pctField_of_ne hne]
    rw [show (orZero none : ℚ) = 0 from rfl]
    rw [zero_div, zero_mul, round3_zero]
  · intro d hd hne hnum
    have h0 : orZero r.hh_total = d := by rw [hd]; rfl
    rw [pct_renter, h0, hnum, pctField_of_ne hne]
    rw [show (orZero none : ℚ) = 0 from rfl]
    rw [zero_div, zero_mul, round3_zero]

/-- A row with positive denominators and absent numerator counts. -/
def missingNumRow : RawRow :=
  { emptyRow with race_total := some 100, hh_total := some 50 }

/-- A row with a present **negative** denominator and an absent
numerator count. -/
def negMissingNumRow : RawRow :=
  { emptyRow with race_total := some (-100) }

/-- Witness for `absent_numerator_zero_pct` at `missingNumRow` (positive
denominators) and `negMissingNumRow` (negative denominator). -/
theorem absent_numerator_zero_pct_witness :
    pct_white missingNumRow = some 0 ∧ pct_renter missingNumRow = some 0
      ∧ pct_white negMissingNumRow = some 0 := by
  refine ⟨?_, ?_, ?_⟩
  · exact (absent_numerator_zero_pct missingNumRow).1 100 rfl (by norm_num) rfl
  · exact (absent_numerator_zero_pct missingNumRow).2 50 rfl (by norm_num) rfl
  · exact (absent_numerator_zero_pct negMissingNumRow).1 (-100) rfl (by norm_num) rfl

/-! ## Reconciler join and coverage check (aggregate_acs.py lines 78–85) -/

/-- Embedding of
`df.merge(gdf[[tract_key, GROUP_FIELD]], left_on=csv_key, right_on=tract_key,
how="left", validate="m:1")`.
The left table is its list of (already normalized) key values, the right
table is (key, group-field) pairs.  Pandas validates many-to-one by
requiring the right keys to be unique, raising `MergeError` otherwise
(modelled as `none`); on success every left row is kept, extended with
the group value of its unique match (or NaN = `none` if unmatched). -/
def mergeLeftM1 (dfKeys : List String) (gdf : List (String × Option String)) :
    Option (List (String × Option String)) :=
  if (gdf.map Prod.fst).Nodup then
    some (dfKeys.map fun k => (k, (gdf.find? fun p => p.1 == k).bind Prod.snd))
  else none

/-- Embedding of `miss = merged[GROUP_FIELD].isna().mean()` (line 83). -/
def missRate (m : List (String × Option String)) : ℚ :=
  ((m.filter fun p => p.2.isNone).length : ℚ) / (m.length : ℚ)

/-- Embedding of `assert miss < 0.02` (line 85): the run aborts exactly
when the assertion condition fails. -/
def joinAborts (m : List (String × Option String)) : Prop :=
  ¬ (missRate m < 2 / 100)

/-- Claim C4 (amended): the left join keeps every indicator row in
order, a duplicated boundary identifier is a fatal error, and the run
aborts if and only if the join-failure rate is **at least** (≥) the 2%
threshold (the assertion `miss < 0.02` also fails at exactly 2%). -/
theorem join_validation_spec :
    (∀ (df : List String) (gdf : List (String × Option String)),
        (gdf.map Prod.fst).Nodup →
          (mergeLeftM1 df gdf).isSome = true
          ∧ ((mergeLeftM1 df gdf).getD []).map Prod.fst = df)
    ∧ (∀ (df : List String) (gdf : List (String × Option String)),
        ¬ (gdf.map Prod.fst).Nodup → mergeLeftM1 df gdf = none)
    ∧ (∀ m : List (String × Option String), joinAborts m ↔ 2 / 100 ≤ missRate m) := by
  refine ⟨?_, ?_, ?_⟩
  · intro df gdf h
    rw [mergeLeftM1, if_pos h]
    constructor
    · rfl
    · rw [Option.getD_some, List.map_map]
      exact List.map_id df
  · intro df gdf h
    rw [mergeLeftM1, if_neg h]
  · intro m
    rw [joinAborts]
    exact not_lt

/-- Indicator table with 50 rows whose keys are "0".."49". -/
def cov50df : List String := (List.range 50).map toString

/-- Boundary table matching keys "1".."49" only (49 unique keys). -/
def cov50gdf : List (String × Option String) :=
  (List.range 49).map fun i => (toString (i + 1), some "Z")

/-- Claim C4, counterexample to the claim as stated: at a join-failure
rate of exactly 2% (1 unmatched row out of 50) the measured rate does
**not** exceed the threshold, yet `assert miss < 0.02` fails and the run
aborts. -/
theorem join_threshold_counterexample :
    missRate ((mergeLeftM1 cov50df cov50gdf).getD []) = 1 / 50
      ∧ joinAborts ((mergeLeftM1 cov50df cov50gdf).getD [])
      ∧ ¬ (missRate ((mergeLeftM1 cov50df cov50gdf).getD []) > 2 / 100) := by
  have h1 : (((mergeLeftM1 cov50df cov50gdf).getD []).filter
      fun p => p.2.isNone).length = 1 := by decide
  have h2 : ((mergeLeftM1 cov50df cov50gdf).getD []).length = 50 := by decide
  refine ⟨?_, ?_, ?_⟩
  · rw [missRate, h1, h2]
    norm_num
  · rw [joinAborts, missRate, h1, h2]
    norm_num
  · rw [missRate, h1, h2]
    norm_num

/-- Witness for `join_validation_spec` at one-row tables. -/
theorem join_validation_spec_witness :
    (mergeLeftM1 ["a"] [("a", some "Z")]).isSome = true
      ∧ mergeLeftM1 ["a"] [("a", some "Z"), ("a", some "W")] = none
      ∧ ¬ joinAborts [("a", some "Z")] := by
  refine ⟨(join_validation_spec.1 ["a"] [("a", some "Z")] (by decide)).1,
          join_validation_spec.2.1 ["a"] [("a", some "Z"), ("a", some "W")] (by decide),
          ?_⟩
  intro h
  have h2 := (join_validation_spec.2.2 [("a", some "Z")]).mp h
  rw [missRate,
    show (([("a", some "Z")] : List (String × Option String)).filter
      fun p => p.2.isNone).length = 0 from rfl,
    show ([("a", some "Z")] : List (String × Option String)).length = 1 from rfl] at h2
  norm_num at h2

/-! ## Fetch driver loop (fetch_acs_nyc_2020_2024.py `main`, lines 161–268) -/

def YEARS : List Nat := [2020, 2021, 2022, 2023]

def COUNTY_CODES : List Nat := [5, 47, 61, 81, 85]

/-- Embedding of the control flow of `main` as written.  At lines
171–173 the header `for year in YEARS:` has only `rows = []` in its
body — the `for county` loop is dedented back to function level — so
after that loop `year` holds the **last** vintage and `rows` is empty,
and the county loop runs once.  The per-year CSV write and
`all_rows_long.extend(rows)` (lines 239–255, indented 8 spaces) sit
inside the county loop, so they run once per county on the accumulated
`rows`.  Output: the list of (year, rows) per-year CSV writes performed,
and the final `all_rows_long` (the stacked dataset). -/
def buggyMainOutputs (fetch : Nat → Nat → List (Nat × Nat)) :
    List (Nat × List (Nat × Nat)) × List (Nat × Nat) :=
  let year := YEARS.getLastD 0
  let fin := COUNTY_CODES.foldl
    (fun (st : List (Nat × Nat) × List (Nat × List (Nat × Nat)) × List (Nat × Nat)) county =>
      let rows := st.1 ++ fetch year county
      (rows, st.2.1 ++ [(year, rows)], st.2.2 ++ rows))
    ([], [], [])
  (fin.2.1, fin.2.2)

/-- The stacked dataset claimed by the spec: the concatenation of every
configured vintage's record set over all sub-regions, no row duplicated,
no vintage omitted.  (Modelled from the spec's description of the
intended output; used only to exhibit the divergence.) -/
def intendedStacked (fetch : Nat → Nat → List (Nat × Nat)) : List (Nat × Nat) :=
  (YEARS.map fun y => (COUNTY_CODES.map fun c => fetch y c).flatten).flatten

/-- Stub Transport: every (vintage, county) request succeeds and parses
to exactly one row, tagged with its (vintage, county). -/
def oneRowStub (y c : Nat) : List (Nat × Nat) := [(y, c)]

/-- Claim C2 fails on the code as written (code bug — the module
docstring promises one CSV per year 2020–2024 plus a stacked CSV of all
years): with every request succeeding, the per-year CSV is written five
times, always for vintage 2023; the stacked dataset contains the Bronx
(county 5) 2023 row five times, contains no 2020 row at all, is not
duplicate-free, and differs from the concatenation of all vintages. -/
theorem stacked_dataset_bug :
    (buggyMainOutputs oneRowStub).1.map Prod.fst = [2023, 2023, 2023, 2023, 2023]
      ∧ ((buggyMainOutputs oneRowStub).2.count (2023, 5) = 5
      ∧ (2020, 5) ∉ (buggyMainOutputs oneRowStub).2
      ∧ ¬ (buggyMainOutputs oneRowStub).2.Nodup)
      ∧ (buggyMainOutputs oneRowStub).2 ≠ intendedStacked oneRowStub
      ∧ (2020, 5) ∈ intendedStacked oneRowStub := by
  exact ⟨by decide, ⟨by decide, by decide, by decide⟩, by decide, by decide⟩

/-! ## Transport retry policy (fetch_acs_nyc_2020_2024.py `fetch_json`, lines 101–132) -/

/-- Classified outcome of one Transport attempt: decoded JSON value,
HTTP error with status code, network error (`URLError`/`TimeoutError`),
or a body that is not valid JSON (`JSONDecodeError`). -/
inductive Outcome where
  | ok : Nat → Outcome
  | httpErr : Nat → Outcome
  | netErr : Outcome
  | badJson : Outcome

/-- The retryable status codes of line 119: `e.code in (429, 500, 502, 503, 504)`. -/
def transientCode (c : Nat) : Bool :=
  c == 429 || c == 500 || c == 502 || c == 503 || c == 504

/-- Result of `fetch_json`, carrying the list of backoff delays slept
(in order): decoded value, immediate non-retryable HTTP failure
(re-raised), or `RuntimeError` after exhausting all attempts. -/
inductive FetchResult where
  | success : Nat → List ℚ → FetchResult
  | permanentFail : Nat → List ℚ → FetchResult
  | exhausted : List ℚ → FetchResult

/-- `retries = 6`, the default attempt bound of `fetch_json`. -/
def retries : Nat := 6

/-- `backoff = 1.6`, the growth factor; the slept delay at attempt `i`
is `backoff ** i`. -/
def backoff : ℚ := 8 / 5

/-- The attempt loop of `fetch_json`: attempt `i` consults the Transport
oracle; success returns, a retryable HTTP code / network error / JSON
decode error sleeps `backoff ^ i` and retries, any other HTTP error is
re-raised, and running out of attempts raises the fetch failure. -/
def fetchGo (oracle : Nat → Outcome) : Nat → Nat → List ℚ → FetchResult
  | 0, _, ds => .exhausted ds
  | fuel + 1, i, ds =>
    match oracle i with
    | .ok v => .success v ds
    | .httpErr c =>
      if transientCode c then fetchGo oracle fuel (i + 1) (ds ++ [backoff ^ i])
      else .permanentFail c ds
    | .netErr => fetchGo oracle fuel (i + 1) (ds ++ [backoff ^ i])
    | .badJson => fetchGo oracle fuel (i + 1) (ds ++ [backoff ^ i])

def fetch_json (oracle : Nat → Outcome) : FetchResult :=
  fetchGo oracle retries 0 []

/-- An attempt outcome the loop retries on: transient HTTP code,
network error, or malformed response body. -/
def transientOutcome : Outcome → Prop
  | .ok _ => False
  | .httpErr c => transientCode c = true
  | .netErr => True
  | .badJson => True

/-- The per-county error isolation of `main` lines 230–233: a failing
unit is skipped (`continue`) and the others are still processed. -/
def processUnits (f : Nat → Option (List Nat)) (units : List Nat) : List (List Nat) :=
  units.filterMap f

theorem fetchGo_transient_step {oracle : Nat → Outcome} {i : Nat}
    (h : transientOutcome (oracle i)) (fuel : Nat) (ds : List ℚ) :
    fetchGo oracle (fuel + 1) i ds = fetchGo oracle fuel (i + 1) (ds ++ [backoff ^ i]) := by
  cases ho : oracle i with
  | ok v => rw [ho] at h; cases h
  | httpErr c =>
    rw [ho] at h
    have h' : transientCode c = true := h
    simp only [fetchGo, ho]
    rw [if_pos h']
  | netErr => simp only [fetchGo, ho]
  | badJson => simp only [fetchGo, ho]

theorem fetchGo_all_transient {oracle : Nat → Outcome} :
    ∀ (fuel i : Nat) (ds : List ℚ),
      (∀ j, i ≤ j → j < i + fuel → transientOutcome (oracle j)) →
      fetchGo oracle fuel i ds
        = .exhausted (ds ++ (List.range fuel).map fun k => backoff ^ (i + k)) := by
  intro fuel
  induction fuel with
  | zero =>
    intro i ds h
    simp [fetchGo]
  | succ n ih =>
    intro i ds h
    rw [fetchGo_transient_step (h i le_rfl (by omega)) n]
    rw [ih (i + 1) _ (fun j hj1 hj2 => h j (by omega) (by omega))]
    congr 1
    rw [List.append_assoc]
    congr 1
    rw [List.range_succ_eq_map]
    simp only [List.map_cons, List.map_map, List.singleton_append, Nat.add_zero]
    congr 1
    apply List.map_congr_left
    intro k _
    simp [Function.comp]
    ring_nf

/-- Claim C6 (amended): the transient, retried class is a timeout,
connection error, malformed body, or an HTTP status in the exact tuple
(429, 500, 502, 503, 504) — **not** every 5xx code.  A unit whose every
attempt fails transiently exhausts exactly `retries` attempts, sleeping
the strictly increasing delays `backoff ^ 0 … backoff ^ 5`, and then
raises the fetch failure; an attempt failing with any other HTTP code
abandons the unit immediately with no retry and no sleep; and a failed
unit is skipped while all remaining units are still processed. -/
theorem fetch_retry_policy :
    (∀ oracle : Nat → Outcome,
        (∀ i, i < retries → transientOutcome (oracle i)) →
        fetch_json oracle = .exhausted ((List.range retries).map fun k => backoff ^ k))
    ∧ List.Chain' (· < ·) ((List.range retries).map fun k => backoff ^ k)
    ∧ (∀ (oracle : Nat → Outcome) (c : Nat),
        oracle 0 = .httpErr c → transientCode c = false →
        fetch_json oracle = .permanentFail c [])
    ∧ (∀ (f : Nat → Option (List Nat)) (us vs : List Nat) (u : Nat), f u = none →
        processUnits f (us ++ u :: vs) = processUnits f us ++ processUnits f vs) := by
  refine ⟨?_, ?_, ?_, ?_⟩
  · intro oracle h
    rw [fetch_json, fetchGo_all_transient retries 0 [] (fun j hj1 hj2 => h j (by omega))]
    simp
  · rw [retries]
    simp [List.range_succ, backoff]
    norm_num
  · intro oracle c h0 hperm
    rw [fetch_json, retries, show (6 : Nat) = 5 + 1 from rfl]
    simp only [fetchGo, h0]
    rw [if_neg (by rw [hperm]; exact Bool.false_ne_true)]
  · intro f us vs u h
    simp [processUnits, List.filterMap_append, List.filterMap_cons, h]

/-- Witness for `fetch_retry_policy`: an always-network-failing
Transport exhausts all six attempts; HTTP 404 on the first attempt is
abandoned immediately; county 47 failing is skipped while counties 5
and 61 are processed. -/
theorem fetch_retry_policy_witness :
    fetch_json (fun _ => .netErr) = .exhausted ((List.range retries).map fun k => backoff ^ k)
      ∧ fetch_json (fun _ => .httpErr 404) = .permanentFail 404 []
      ∧ processUnits (fun u => if u = 47 then none else some [u]) ([5] ++ 47 :: [61])
          = processUnits (fun u => if u = 47 then none else some [u]) [5]
            ++ processUnits (fun u => if u = 47 then none else some [u]) [61] := by
  refine ⟨fetch_retry_policy.1 _ (fun i _ => trivial),
          fetch_retry_policy.2.2.1 _ 404 rfl (by decide),
          fetch_retry_policy.2.2.2 _ [5] [61] 47 (by decide)⟩

/-- Claim C6, counterexample to the claim as stated: HTTP 501 is a
server-error (5xx) status, which the claim places in the retried
transient class, but it is not in the tuple `(429, 500, 502, 503, 504)`
of line 119, so the `raise` at line 123 abandons the unit on the very
first attempt — no retry, no backoff sleep. -/
theorem http501_not_retried :
    fetch_json (fun _ => .httpErr 501) = .permanentFail 501 []
      ∧ transientCode 501 = false
      ∧ (500 ≤ 501 ∧ 501 ≤ 599) := by
  refine ⟨?_, by decide, by decide, by decide⟩
  rw [fetch_json, retries, show (6 : Nat) = 5 + 1 from rfl]
  simp only [fetchGo]
  rw [if_neg (by decide)]

/-! ## Weight-column selection (aggregate_acs.py lines 89–99) -/

/-- The fixed 12-character stem of the pattern `pop_total_20\d{2}`. -/
def popPrefix : List Char :=
  ['p', 'o', 'p', '_', 't', 'o', 't', 'a', 'l', '_', '2', '0']

/-- Embedding of `re.fullmatch(r"pop_total_20\d{2}", c)` (line 90): the
whole name is the stem followed by exactly two digits. -/
def matchesPopPattern (c : List Char) : Bool :=
  c.length == 14 && c.take 12 == popPrefix && (c.drop 12).all Char.isDigit

/-- Python string `<`: lexicographic comparison by code point, a strict
prefix comparing smaller. -/
def lexLt : List Char → List Char → Bool
  | _, [] => false
  | [], _ :: _ => true
  | a :: as, b :: bs =>
    if a < b then true else if b < a then false else lexLt as bs

/-- One step of Python `max`: keep the current best unless the candidate
is strictly greater (so the first maximal element wins ties). -/
def maxStep (best c : List Char) : List Char :=
  if lexLt best c then c else best

/-- Embedding of `max(candidates, default=None)` (line 91). -/
def pyMax : List (List Char) → Option (List Char)
  | [] => none
  | x :: xs => some (xs.foldl maxStep x)

/-- The ordered fallback list of line 94. -/
def fallbackGuesses : List (List Char) :=
  ["pop_total_2023".toList, "pop_total_2022".toList, "pop_total".toList, "hh_total".toList]

/-- Embedding of the weight-column selection, lines 89–98: the
lexicographically greatest column matching `pop_total_20\d{2}`, else the
first fallback guess present among the columns, else none (in which case
the `assert weight_col` at line 98 aborts the run). -/
def selectWeightCol (cols : List (List Char)) : Option (List Char) :=
  match pyMax (cols.filter matchesPopPattern) with
  | some w => some w
  | none => fallbackGuesses.find? fun g => cols.contains g

/-- The two-digit vintage suffix of a pattern-matching column name. -/
def vintage (c : List Char) : Nat :=
  10 * ((c.getD 12 '0').toNat - 48) + ((c.getD 13 '0').toNat - 48)

/-- Embedding of the weighted-mean aggregation loop of lines 113–117:
the weight column is selected **once** and the same column is used for
every weighted-mean column.  `col` gives a column's series over the
group's members. -/
def aggWeightedCols (cols : List (List Char)) (col : List Char → List (Option ℚ))
    (wavgCols : List (List Char)) : List (List Char × Option ℚ) :=
  match selectWeightCol cols with
  | none => []
  | some w => wavgCols.map fun c => (c, weighted_avg ((col c).zip (col w)))

theorem matches_decomp {c : List Char} (h : matchesPopPattern c = true) :
    ∃ d1 d2, c = popPrefix ++ [d1, d2] ∧ d1.isDigit = true ∧ d2.isDigit = true := by
  rw [matchesPopPattern] at h
  simp only [Bool.and_eq_true, beq_iff_eq, List.all_eq_true] at h
  obtain ⟨⟨hlen, htake⟩, hall⟩ := h
  have hdlen : (c.drop 12).length = 2 := by rw [List.length_drop, hlen]
  obtain ⟨d1, d2, hd⟩ := List.length_eq_two.1 hdlen
  refine ⟨d1, d2, ?_, ?_, ?_⟩
  · conv_lhs => rw [← List.take_append_drop 12 c]
    rw [htake, hd]
  · exact hall d1 (by rw [hd]; exact List.mem_cons_self _ _)
  · exact hall d2 (by rw [hd]; exact List.mem_cons_of_mem _ (List.mem_cons_self _ _))

theorem vintage_pair (d1 d2 : Char) :
    vintage (popPrefix ++ [d1, d2]) = 10 * (d1.toNat - 48) + (d2.toNat - 48) := rfl

theorem digit_toNat_bounds {c : Char} (h : c.isDigit = true) :
    48 ≤ c.toNat ∧ c.toNat ≤ 57 := by
  simp [Char.isDigit] at h
  exact h

theorem lexLt_append_same : ∀ (p x y : List Char), lexLt (p ++ x) (p ++ y) = lexLt x y
  | [], _, _ => rfl
  | a :: p, x, y => by
    rw [List.cons_append, List.cons_append]
    show (if a < a then true else if a < a then false else lexLt (p ++ x) (p ++ y)) = _
    rw [if_neg (lt_irrefl a), if_neg (lt_irrefl a)]
    exact lexLt_append_same p x y

theorem lexLt_pair_iff {d1 d2 e1 e2 : Char} (h1 : d1.isDigit = true) (h2 : d2.isDigit = true)
    (h3 : e1.isDigit = true) (h4 : e2.isDigit = true) :
    lexLt [d1, d2] [e1, e2] = true ↔
      10 * (d1.toNat - 48) + (d2.toNat - 48) < 10 * (e1.toNat - 48) + (e2.toNat - 48) := by
  obtain ⟨a1, a2⟩ := digit_toNat_bounds h1
  obtain ⟨b1, b2⟩ := digit_toNat_bounds h2
  obtain ⟨c1, c2⟩ := digit_toNat_bounds h3
  obtain ⟨d1', d2'⟩ := digit_toNat_bounds h4
  simp only [lexLt]
  split_ifs with ha hb hc hd
  · have ha' : d1.toNat < e1.toNat := ha
    exact iff_of_true rfl (by omega)
  · have ha' : ¬ d1.toNat < e1.toNat := ha
    have hb' : e1.toNat < d1.toNat := hb
    exact iff_of_false (by simp) (by omega)
  · have ha' : ¬ d1.toNat < e1.toNat := ha
    have hb' : ¬ e1.toNat < d1.toNat := hb
    have hc' : d2.toNat < e2.toNat := hc
    exact iff_of_true rfl (by omega)
  · have ha' : ¬ d1.toNat < e1.toNat := ha
    have hb' : ¬ e1.toNat < d1.toNat := hb
    have hd' : e2.toNat < d2.toNat := hd
    exact iff_of_false (by simp) (by omega)
  · have ha' : ¬ d1.toNat < e1.toNat := ha
    have hb' : ¬ e1.toNat < d1.toNat := hb
    have hc' : ¬ d2.toNat < e2.toNat := hc
    have hd' : ¬ e2.toNat < d2.toNat := hd
    exact iff_of_false (by simp) (by omega)

theorem lexLt_iff_vintage {a b : List Char}
    (ha : matchesPopPattern a = true) (hb : matchesPopPattern b = true) :
    lexLt a b = true ↔ vintage a < vintage b := by
  obtain ⟨d1, d2, rfl, hd1, hd2⟩ := matches_decomp ha
  obtain ⟨e1, e2, rfl, he1, he2⟩ := matches_decomp hb
  rw [lexLt_append_same, vintage_pair, vintage_pair]
  exact lexLt_pair_iff hd1 hd2 he1 he2

theorem maxStep_matches {x c : List Char} (hx : matchesPopPattern x = true)
    (hc : matchesPopPattern c = true) : matchesPopPattern (maxStep x c) = true := by
  rw [maxStep]
  split_ifs <;> assumption

theorem foldl_max_spec :
    ∀ (xs : List (List Char)) (x : List Char),
      matchesPopPattern x = true → (∀ c ∈ xs, matchesPopPattern c = true) →
      ((xs.foldl maxStep x) = x ∨ (xs.foldl maxStep x) ∈ xs)
        ∧ matchesPopPattern (xs.foldl maxStep x) = true
        ∧ vintage x ≤ vintage (xs.foldl maxStep x)
        ∧ ∀ c ∈ xs, vintage c ≤ vintage (xs.foldl maxStep x) := by
  intro xs
  induction xs with
  | nil =>
    intro x hx _
    exact ⟨Or.inl rfl, hx, le_rfl, by intro c hc; cases hc⟩
  | cons c rest ih =>
    intro x hx hall
    have hc : matchesPopPattern c = true := hall c (List.mem_cons_self _ _)
    have hrest : ∀ d ∈ rest, matchesPopPattern d = true :=
      fun d hd => hall d (List.mem_cons_of_mem _ hd)
    have hx' : matchesPopPattern (maxStep x c) = true := maxStep_matches hx hc
    obtain ⟨hmem, hm, hge, hall2⟩ := ih (maxStep x c) hx' hrest
    rw [List.foldl_cons]
    have hxle : vintage x ≤ vintage (maxStep x c) := by
      rw [maxStep]
      split_ifs with h
      · exact le_of_lt ((lexLt_iff_vintage hx hc).1 h)
      · exact le_rfl
    have hcle : vintage c ≤ vintage (maxStep x c) := by
      rw [maxStep]
      split_ifs with h
      · exact le_rfl
      · have : ¬ vintage x < vintage c := fun hv =>
          h ((lexLt_iff_vintage hx hc).2 hv)
        omega
    refine ⟨?_, hm, le_trans hxle hge, ?_⟩
    · rcases hmem with h | h
      · rw [h, maxStep]
        split_ifs
        · exact Or.inr (List.mem_cons_self _ _)
        · exact Or.inl rfl
      · exact Or.inr (List.mem_cons_of_mem _ h)
    · intro d hd
      rcases List.mem_cons.1 hd with rfl | h
      · exact le_trans hcle hge
      · exact hall2 d h

theorem pyMax_spec {l : List (List Char)} (hall : ∀ c ∈ l, matchesPopPattern c = true)
    (hne : l ≠ []) :
    ∃ w, pyMax l = some w ∧ w ∈ l ∧ matchesPopPattern w = true
      ∧ ∀ c ∈ l, vintage c ≤ vintage w := by
  cases l with
  | nil => exact absurd rfl hne
  | cons x xs =>
    obtain ⟨hmem, hm, hge, hall2⟩ := foldl_max_spec xs x
      (hall x (List.mem_cons_self _ _)) (fun c hc => hall c (List.mem_cons_of_mem _ hc))
    refine ⟨xs.foldl maxStep x, rfl, ?_, hm, ?_⟩
    · rcases hmem with h | h
      · rw [h]; exact List.mem_cons_self _ _
      · exact List.mem_cons_of_mem _ h
    · intro c hc
      rcases List.mem_cons.1 hc with rfl | h
      · exact hge
      · exact hall2 c h

/-- Claim C8: if any column matches the `pop_total_20\d{2}` pattern, the
selection returns a matching column from the table whose vintage suffix
is maximal; if none matches, it returns the first of the fixed fallback
candidates present in the table; it returns nothing (so the
`assert weight_col` aborts the run) exactly when neither exists; and the
weighted-mean aggregation pairs **every** weighted-mean column with the
single column selected once. -/
theorem weight_col_selection :
    (∀ (cols : List (List Char)) (c : List Char),
        c ∈ cols → matchesPopPattern c = true →
        ∃ w, selectWeightCol cols = some w ∧ w ∈ cols ∧ matchesPopPattern w = true
          ∧ ∀ c' ∈ cols, matchesPopPattern c' = true → vintage c' ≤ vintage w)
    ∧ (∀ cols : List (List Char), (∀ c ∈ cols, matchesPopPattern c = false) →
        selectWeightCol cols = fallbackGuesses.find? fun g => cols.contains g)
    ∧ (∀ cols : List (List Char),
        selectWeightCol cols = none ↔
          ((∀ c ∈ cols, matchesPopPattern c = false)
            ∧ ∀ g ∈ fallbackGuesses, ¬ cols.contains g = true))
    ∧ (∀ (cols : List (List Char)) (col : List Char → List (Option ℚ))
          (wavgCols : List (List Char)) (w : List Char),
        selectWeightCol cols = some w →
        aggWeightedCols cols col wavgCols
          = wavgCols.map fun c => (c, weighted_avg ((col c).zip (col w)))) := by
  refine ⟨?_, ?_, ?_, ?_⟩
  · intro cols c hc hmat
    have hcf : c ∈ cols.filter matchesPopPattern := List.mem_filter.2 ⟨hc, hmat⟩
    have hne : cols.filter matchesPopPattern ≠ [] := by
      intro h
      rw [h] at hcf
      cases hcf
    obtain ⟨w, hw, hwmem, hwmat, hmax⟩ :=
      pyMax_spec (fun d hd => (List.mem_filter.1 hd).2) hne
    refine ⟨w, ?_, (List.mem_filter.1 hwmem).1, hwmat, ?_⟩
    · rw [selectWeightCol, hw]
    · intro c' hc' hmat'
      exact hmax c' (List.mem_filter.2 ⟨hc', hmat'⟩)
  · intro cols h
    have hfil : cols.filter matchesPopPattern = [] :=
      List.filter_eq_nil_iff.2 fun c hc => by rw [h c hc]; exact Bool.false_ne_true
    rw [selectWeightCol, hfil]
    rfl
  · intro cols
    constructor
    · intro h
      rw [selectWeightCol] at h
      cases hp : pyMax (cols.filter matchesPopPattern) with
      | some w => rw [hp] at h; cases h
      | none =>
        rw [hp] at h
        have hfil : cols.filter matchesPopPattern = [] := by
          cases hf : cols.filter matchesPopPattern with
          | nil => rfl
          | cons a l => rw [hf] at hp; exact absurd hp (by rw [pyMax]; simp)
        refine ⟨?_, ?_⟩
        · intro c hc
          by_contra hne
          have hmat : matchesPopPattern c = true := by
            cases hm : matchesPopPattern c with
            | false => exact absurd hm hne
            | true => rfl
          have : c ∈ cols.filter matchesPopPattern := List.mem_filter.2 ⟨hc, hmat⟩
          rw [hfil] at this
          cases this
        · intro g hg
          exact List.find?_eq_none.1 h g hg
    · rintro ⟨h1, h2⟩
      have hfil : cols.filter matchesPopPattern = [] :=
        List.filter_eq_nil_iff.2 fun c hc => by rw [h1 c hc]; exact Bool.false_ne_true
      rw [selectWeightCol, hfil]
      exact List.find?_eq_none.2 h2
  · intro cols col wavgCols w h
    rw [aggWeightedCols, h]

/-- A column table carrying two pattern vintages plus fallbacks. -/
def demoCols : List (List Char) :=
  ["GEOID".toList, "pop_total_2021".toList, "hh_total".toList, "pop_total_2023".toList,
   "pop_total_2022".toList, "pct_white_2023".toList]

/-- A column table with no pattern match and only the `hh_total` fallback. -/
def demoFallbackCols : List (List Char) :=
  ["GEOID".toList, "hh_total".toList, "pct_white_2023".toList]

/-- Witness for `weight_col_selection` at concrete column tables. -/
theorem weight_col_selection_witness :
    (selectWeightCol demoCols).isSome = true
      ∧ selectWeightCol demoFallbackCols
          = fallbackGuesses.find? (fun g => demoFallbackCols.contains g)
      ∧ selectWeightCol ["GEOID".toList] = none
      ∧ aggWeightedCols demoCols (fun _ => [some 1]) ["pct_white_2023".toList]
          = [("pct_white_2023".toList, weighted_avg ((fun _ => [some (1:ℚ)]) "pct_white_2023".toList |>.zip ((fun _ => [some (1:ℚ)]) "pop_total_2023".toList)))] := by
  refine ⟨?_, ?_, ?_, ?_⟩
  · obtain ⟨w, hw, -⟩ :=
      weight_col_selection.1 demoCols ("pop_total_2021".toList) (by decide) (by decide)
    rw [hw]
    rfl
  · exact weight_col_selection.2.1 demoFallbackCols (by decide)
  · exact (weight_col_selection.2.2.1 ["GEOID".toList]).2 ⟨by decide, by decide⟩
  · exact weight_col_selection.2.2.2 demoCols (fun _ => [some 1])
      ["pct_white_2023".toList] ("pop_total_2023".toList) (by decide)

end NYCUHI
